import Mathlib

/-!
Verification of the bashtrack command-history store.

This file shallowly embeds the data model and operations of the bashtrack
repository (Go, SQLite-backed): the schema created by initDatabase and
migrateDatabase, the exclusion filter shouldExclude, the write path
recordCommand, the readers loadCommandWords and searchCommands, and the
average-per-day computation of showStats.  SQL tables are embedded as
lists of row structures; a table that does not exist in the database is
embedded as none.  Machine integers are Nat; timestamps are instants in
seconds.  The Go standard-library regexp engine is not repository code,
so it is modelled by a small matcher faithful to RE2 semantics on the
restricted pattern fragment the repository uses.
-/

namespace Bashtrack

/-- A row of the commands table: id INTEGER PRIMARY KEY AUTOINCREMENT,
timestamp DATETIME, directory TEXT, full_command TEXT (db_init.go). -/
structure CommandRow where
  id : Nat
  timestamp : Nat
  directory : String
  full_command : String
  deriving DecidableEq

/-- A row of the legacy command_words table written by recordCommand
(commands.go lines 385 to 396): command_id, word_position, word. -/
structure CommandWordRow where
  command_id : Nat
  word_position : Nat
  word : String
  deriving DecidableEq

/-- A row of the normalized command_word_positions table created by
initDatabase: command_id, word_id, position. -/
structure WordPosRow where
  command_id : Nat
  word_id : Nat
  position : Nat
  deriving DecidableEq

/-- The database state.  Each SQL table is an optional list of rows;
none means the table does not exist (a statement touching it fails).
The words table stores the word texts; the id of a word is its
one-based index, matching AUTOINCREMENT insertion order.
nextCommandId models the AUTOINCREMENT counter of the commands table,
returned to the code through LastInsertId. -/
structure DB where
  commands : Option (List CommandRow)
  words : Option (List String)
  cwp : Option (List WordPosRow)
  commandWords : Option (List CommandWordRow)
  nextCommandId : Nat
  deriving DecidableEq

/-- A database file that does not exist yet: no tables at all. -/
def emptyDB : DB :=
  { commands := none, words := none, cwp := none, commandWords := none,
    nextCommandId := 1 }

/-- Whitespace test used by strings.Fields (unicode.IsSpace restricted to
the ASCII whitespace characters). -/
def isSpaceChar (c : Char) : Bool :=
  c == ' ' || c == '\t' || c == '\n' || c == '\r' || c == '\x0b' || c == '\x0c'

/-- Worker for fields: walks the characters, accumulating the current
word reversed, emitting a word at each whitespace boundary. -/
def fieldsCore : List Char → List Char → List String
  | [], acc => if acc = [] then [] else [String.mk acc.reverse]
  | c :: rest, acc =>
    if isSpaceChar c then
      if acc = [] then fieldsCore rest []
      else String.mk acc.reverse :: fieldsCore rest []
    else fieldsCore rest (c :: acc)

/-- strings.Fields: split a string around runs of whitespace, returning
the list of non-empty tokens. -/
def fields (s : String) : List String := fieldsCore s.data []

/-- shouldExclude (commands.go lines 15 to 26): walk the configured
patterns in order; a pattern that fails to compile is skipped with
continue; the first compiled pattern that matches returns true; if no
pattern matches the result is false.  The regexp engine is passed in as
compile, returning none exactly when compilation fails. -/
def shouldExclude (compile : String → Option (String → Bool))
    (patterns : List String) (command : String) : Bool :=
  match patterns with
  | [] => false
  | p :: rest =>
    match compile p with
    | none => shouldExclude compile rest command
    | some m => if m command then true else shouldExclude compile rest command

/-- Modelled from the spec: core of the Go standard-library regexp
matcher (RE2 semantics) on the fragment of patterns the repository uses:
literal characters, a dot wildcard, a star on the previous atom, a
leading caret anchor and a trailing dollar anchor.  Matches the pattern
against the start of the string.  The fuel argument bounds recursion;
pattern length plus string length plus one steps always suffice. -/
def reHere : Nat → List Char → List Char → Bool
  | 0, _, _ => false
  | fuel + 1, pat, s =>
    match pat, s with
    | [], _ => true
    | ['$'], [] => true
    | ['$'], _ :: _ => false
    | c :: '*' :: ps, s =>
      reHere fuel ps s ||
        (match s with
         | [] => false
         | x :: xs => (c == '.' || c == x) && reHere fuel (c :: '*' :: ps) xs)
    | c :: ps, x :: xs => (c == '.' || c == x) && reHere fuel ps xs
    | _ :: _, [] => false

/-- Modelled from the spec: unanchored search, trying a match at every
suffix of the string, as RE2 does for a pattern with no caret. -/
def reSearch : List Char → List Char → Bool
  | pat, [] => reHere (pat.length + 1) pat []
  | pat, x :: xs =>
    reHere (pat.length + (x :: xs).length + 1) pat (x :: xs) || reSearch pat xs

/-- Modelled from the spec: regexp.MatchString on the supported pattern
fragment.  A leading caret anchors the match to the start of the string;
otherwise the pattern may match anywhere. -/
def reMatch (pat : List Char) (s : List Char) : Bool :=
  match pat with
  | '^' :: rest => reHere (rest.length + s.length + 1) rest s
  | _ => reSearch pat s

/-- Characters the modelled fragment accepts as plain atoms: everything
except the metacharacters it does not support. -/
def plainREChar (c : Char) : Bool :=
  !(c == '(' || c == ')' || c == '[' || c == ']' || c == '\\' ||
    c == '+' || c == '?' || c == '|' || c == '^')

/-- Syntactic validity of a pattern body in the supported fragment: a
star must follow a repeatable atom, and a dollar may appear only last.
The Bool argument records whether the previous character was a
repeatable atom. -/
def bodyOK : Bool → List Char → Bool
  | _, [] => true
  | _, ['$'] => true
  | prev, '*' :: rest => prev && bodyOK false rest
  | _, '$' :: _ :: _ => false
  | _, c :: rest => plainREChar c && bodyOK true rest

/-- Modelled from the spec: compilation of a pattern by the regexp
engine.  Returns none exactly when the pattern is not valid in the
supported fragment, mirroring a regexp compilation error. -/
def compileRE (pat : String) : Option (String → Bool) :=
  let body :=
    match pat.data with
    | '^' :: rest => rest
    | l => l
  if bodyOK false body then some (fun s => reMatch pat.data s.data) else none

/-- The rows inserted by the word loop of recordCommand (commands.go
lines 385 to 396): one command_words row per token, carrying the
token index as word_position. -/
def wordRows (commandId : Nat) : Nat → List String → List CommandWordRow
  | _, [] => []
  | pos, w :: ws => ⟨commandId, pos, w⟩ :: wordRows commandId (pos + 1) ws

/-- recordCommand (commands.go lines 337 to 402).  The arguments are
joined with single spaces; a failed working-directory lookup (wdRes =
none) falls back to the literal directory string unknown; an excluded
command returns silently; a command with no tokens returns silently;
otherwise one transaction inserts the command row and one command_words
row per token.  If any insert fails, in particular when a target table
does not exist, the transaction is rolled back and the database is
unchanged; the error is printed, not raised, so the Bool result records
whether the call completed without printing an error. -/
def recordCommand (compile : String → Option (String → Bool))
    (patterns : List String) (wdRes : Option String) (args : List String)
    (now : Nat) (db : DB) : DB × Bool :=
  let command := String.intercalate (" ") args
  let wd := wdRes.getD ("unknown")
  if shouldExclude compile patterns command then (db, true)
  else
    let ws := fields command
    if ws = [] then (db, true)
    else
      match db.commands, db.commandWords with
      | some cs, some cws =>
        ({ db with
            commands := some (cs ++ [⟨db.nextCommandId, now, wd, command⟩]),
            commandWords := some (cws ++ wordRows db.nextCommandId 0 ws),
            nextCommandId := db.nextCommandId + 1 }, true)
      | _, _ => (db, false)

/-- INSERT OR IGNORE INTO words SELECT DISTINCT word FROM command_words:
append each word text not already present, in scan order. -/
def insertNewWords (ws : List String) : List String → List String
  | [] => ws
  | w :: rest =>
    if w ∈ ws then insertNewWords ws rest else insertNewWords (ws ++ [w]) rest

/-- The id of a word text in the words table: its one-based index,
matching AUTOINCREMENT insertion order. -/
def wordId (ws : List String) (w : String) : Nat := ws.indexOf w + 1

/-- migrateDatabase (unnamed/part_002 lines 177 to 242): if the legacy
command_words table does not exist there is nothing to do; otherwise,
inside one transaction, create the words and command_word_positions
tables if absent, copy the distinct legacy word texts into words,
re-derive the position links by joining the legacy rows against words on
text equality, and drop the legacy table. -/
def migrateDatabase (db : DB) : DB :=
  match db.commandWords with
  | none => db
  | some legacy =>
    let words0 := db.words.getD []
    let cwp0 := db.cwp.getD []
    let words1 := insertNewWords words0 (legacy.map fun r => r.word)
    let newLinks := legacy.map fun r =>
      (⟨r.command_id, wordId words1 r.word, r.word_position⟩ : WordPosRow)
    { db with
        words := some words1,
        cwp := some (cwp0 ++ newLinks),
        commandWords := none }

/-- initDatabase (unnamed/part_002 lines 244 to 302, schema text also at
db_init.go lines 26 to 58): run the migration, then create the commands,
words and command_word_positions tables if they do not exist.  Index
creation does not change stored data and is not modelled. -/
def initDatabase (db : DB) : DB :=
  let db1 := migrateDatabase db
  { db1 with
      commands := some (db1.commands.getD []),
      words := some (db1.words.getD []),
      cwp := some (db1.cwp.getD []) }

/-- The state of a database file freshly created by initDatabase. -/
def freshDB : DB := initDatabase emptyDB

/-- A database state in which the command_words table written by
recordCommand exists, alongside the tables of the current schema, so
that the inserts of the write path succeed. -/
def legacyReadyDB : DB :=
  { commands := some [], words := some [], cwp := some [],
    commandWords := some [], nextCommandId := 1 }

/-- Ascending order on command_words rows by word_position, the ORDER BY
of loadCommandWords. -/
def posLe (a b : CommandWordRow) : Prop := a.word_position ≤ b.word_position

instance : DecidableRel posLe := fun a b => Nat.decLe a.word_position b.word_position

instance : IsTotal CommandWordRow posLe :=
  ⟨fun a b => Nat.le_total a.word_position b.word_position⟩

instance : IsTrans CommandWordRow posLe :=
  ⟨fun _ _ _ hab hbc => Nat.le_trans hab hbc⟩

/-- loadCommandWords (commands.go lines 457 to 477): SELECT word FROM
command_words WHERE command_id = ? ORDER BY word_position.  Returns none
when the table does not exist (the query errors). -/
def loadCommandWords (db : DB) (commandId : Nat) : Option (List String) :=
  db.commandWords.map fun rows =>
    (List.insertionSort posLe (rows.filter fun r => r.command_id == commandId)).map
      fun r => r.word

/-- Whether the first character list is a prefix of the second. -/
def startsWithChars : List Char → List Char → Bool
  | [], _ => true
  | _ :: _, [] => false
  | p :: ps, x :: xs => p == x && startsWithChars ps xs

/-- Whether the first character list occurs contiguously inside the
second. -/
def containsChars : List Char → List Char → Bool
  | pat, [] => startsWithChars pat []
  | pat, x :: xs => startsWithChars pat (x :: xs) || containsChars pat xs

/-- SQL LIKE with pattern percent-pat-percent: substring containment,
case-insensitive on ASCII letters as in the SQLite default. -/
def likeContains (s pat : String) : Bool :=
  containsChars (pat.data.map Char.toLower) (s.data.map Char.toLower)

/-- The WHERE clause of searchCommands for one command row: the full
command text matches, or some command_words row linked to this command
matches. -/
def cmdMatches (cws : List CommandWordRow) (pat : String) (c : CommandRow) : Bool :=
  likeContains c.full_command pat ||
    cws.any fun r => r.command_id == c.id && likeContains r.word pat

/-- Descending order on command rows by timestamp, the ORDER BY
timestamp DESC of searchCommands. -/
def tsDesc (a b : CommandRow) : Prop := b.timestamp ≤ a.timestamp

instance : DecidableRel tsDesc := fun a b => Nat.decLe b.timestamp a.timestamp

instance : IsTotal CommandRow tsDesc :=
  ⟨fun a b => Nat.le_total b.timestamp a.timestamp⟩

instance : IsTrans CommandRow tsDesc :=
  ⟨fun _ _ _ hab hbc => Nat.le_trans hbc hab⟩

/-- searchCommands (commands.go lines 479 to 524): SELECT DISTINCT the
command rows whose full_command matches or that are linked through
command_words to a matching word, ORDER BY timestamp DESC LIMIT 50.
Returns none when a referenced table does not exist (the query errors
and no rows are produced). -/
def searchCommands (db : DB) (pat : String) : Option (List CommandRow) :=
  match db.commands, db.commandWords with
  | some cs, some cws =>
    some ((List.insertionSort tsDesc (cs.filter fun c => cmdMatches cws pat c)).take 50)
  | _, _ => none

/-- The average-per-day computation of showStats (commands.go lines 555
to 558): days is the truncated whole-day difference between newest and
oldest timestamps (instants in seconds; Nat division by 86400 is the
truncation of Hours divided by 24), and the average is printed only when
days is positive. -/
def showStatsAvg (totalCommands : Nat) (oldest newest : Nat) : Option ℚ :=
  let days : Nat := (newest - oldest) / 86400
  if 0 < days then some ((totalCommands : ℚ) / (days : ℚ)) else none

/-- Command rows for the search scenario of the specification: two
docker commands and one unrelated command. -/
def searchDemoCs : List CommandRow :=
  [⟨1, 100, "/w", "docker build ."⟩, ⟨2, 200, "/w", "docker ps"⟩,
   ⟨3, 300, "/w", "git status"⟩]

/-- The command_words rows the write path would store for the search
scenario commands. -/
def searchDemoCws : List CommandWordRow :=
  wordRows 1 0 (fields ("docker build .")) ++
    wordRows 2 0 (fields ("docker ps")) ++
    wordRows 3 0 (fields ("git status"))

/-- A database state holding the search scenario data. -/
def searchDemoDB : DB :=
  { commands := some searchDemoCs, words := some [], cwp := some [],
    commandWords := some searchDemoCws, nextCommandId := 4 }

/-! ### Helper lemmas -/

theorem wordRows_pos_ge (cid p : Nat) (ws : List String) :
    ∀ r ∈ wordRows cid p ws, p ≤ r.word_position := by
  induction ws generalizing p with
  | nil => simp [wordRows]
  | cons w ws ih =>
    intro r hr
    simp only [wordRows, List.mem_cons] at hr
    rcases hr with h | h
    · subst h; exact Nat.le_refl p
    · exact Nat.le_trans (Nat.le_succ p) (ih (p + 1) r h)

theorem wordRows_sorted_by_pos (cid p : Nat) (ws : List String) :
    List.Sorted posLe (wordRows cid p ws) := by
  induction ws generalizing p with
  | nil => exact List.Pairwise.nil
  | cons w ws ih =>
    refine List.Pairwise.cons ?_ (ih (p + 1))
    intro r hr
    exact Nat.le_trans (Nat.le_succ p) (wordRows_pos_ge cid (p + 1) ws r hr)

theorem wordRows_filter_self (cid p : Nat) (ws : List String) :
    (wordRows cid p ws).filter (fun r => r.command_id == cid) = wordRows cid p ws := by
  induction ws generalizing p with
  | nil => rfl
  | cons w ws ih => simp [wordRows, List.filter, ih]

theorem wordRows_map_word (cid p : Nat) (ws : List String) :
    (wordRows cid p ws).map (fun r => r.word) = ws := by
  induction ws generalizing p with
  | nil => rfl
  | cons w ws ih => simp [wordRows, ih]

theorem filter_other_commands_nil (cid : Nat) (cws : List CommandWordRow)
    (h : ∀ r ∈ cws, r.command_id ≠ cid) :
    cws.filter (fun r => r.command_id == cid) = [] := by
  induction cws with
  | nil => rfl
  | cons r rs ih =>
    have h1 : (r.command_id == cid) = false :=
      beq_eq_false_iff_ne.mpr (h r (List.mem_cons_self r rs))
    simp [List.filter, h1, ih (fun x hx => h x (List.mem_cons_of_mem r hx))]

/-! ### Claim theorems -/

/-- C1: the claim says a non-empty, non-excluded record call adds one
command row, the unseen distinct tokens to the words table, and one
position row per token.  On a database freshly created by initDatabase
the code does none of this: recordCommand writes its word rows to the
command_words table, which initDatabase never creates, so the insert
fails and the whole transaction is rolled back, leaving every table
unchanged, and the words and command_word_positions tables are never
written by the write path at all.  This evaluation exhibits the failure
at the test scenario of the repository. -/
theorem recordCommand_fresh_db_writes_nothing :
    recordCommand compileRE [] (some ("/tmp/proj")) ["git", "status", "--porcelain"] 5 freshDB
        = (freshDB, false)
      ∧ freshDB.commands = some [] ∧ freshDB.words = some []
      ∧ freshDB.cwp = some [] ∧ freshDB.commandWords = none :=
  ⟨rfl, rfl, rfl, rfl, rfl⟩

/-- C2: the claim says recording two commands sharing a token inserts
exactly one words row for that token.  The code never inserts into the
words table: on a fresh database both record calls fail entirely, and
even in a state where the command_words table exists the write path
stores the token text once per command in command_words, leaving the
deduplicated words table empty. -/
theorem recordCommand_never_writes_words_table :
    ((recordCommand compileRE [] (some ("/a")) ["docker", "ps"] 2
        (recordCommand compileRE [] (some ("/a")) ["docker", "build", "."] 1 freshDB).1).1.words
          = some []
      ∧ (recordCommand compileRE [] (some ("/a")) ["docker", "ps"] 2
          (recordCommand compileRE [] (some ("/a")) ["docker", "build", "."] 1 freshDB).1).1
            = freshDB)
    ∧ ((recordCommand compileRE [] (some ("/a")) ["docker", "ps"] 2
          (recordCommand compileRE [] (some ("/a")) ["docker", "build", "."] 1 legacyReadyDB).1).1.words
            = some []
      ∧ (((recordCommand compileRE [] (some ("/a")) ["docker", "ps"] 2
            (recordCommand compileRE [] (some ("/a")) ["docker", "build", "."] 1 legacyReadyDB).1).1.commandWords.getD
              []).filter fun r => r.word == ("docker")).length = 2) :=
  ⟨⟨rfl, rfl⟩, ⟨rfl, rfl⟩⟩

/-- C3: an excluded command, and a command that is empty or tokenizes to
zero words, inserts no row into any table: recordCommand returns before
touching the database, leaving the state unchanged, and the call
completes silently without an error. -/
theorem recordCommand_excluded_or_empty_noop
    (compile : String → Option (String → Bool)) (patterns : List String)
    (wdRes : Option String) (args : List String) (now : Nat) (db : DB)
    (h : shouldExclude compile patterns (String.intercalate (" ") args) = true
        ∨ fields (String.intercalate (" ") args) = []) :
    recordCommand compile patterns wdRes args now db = (db, true) := by
  unfold recordCommand
  rcases h with h | h
  · simp [h]
  · by_cases hx : shouldExclude compile patterns (String.intercalate (" ") args) = true
    · simp [hx]
    · simp [hx, h]

theorem recordCommand_excluded_or_empty_noop_witness :
    recordCommand compileRE [("^ls$")] (some ("/x")) [("ls")] 0 freshDB = (freshDB, true)
    ∧ recordCommand compileRE [] none [] 0 freshDB = (freshDB, true) :=
  ⟨recordCommand_excluded_or_empty_noop compileRE [("^ls$")] (some ("/x")) [("ls")] 0 freshDB
      (Or.inl (by decide)),
    recordCommand_excluded_or_empty_noop compileRE [] none [] 0 freshDB (Or.inr rfl)⟩

/-- C5: the claim says recording the identical command text twice
creates two independent command rows.  On a database freshly created by
initDatabase both calls fail entirely, because the word insert targets
the absent command_words table and the transaction is rolled back: zero
command rows result, not two, and the own test of the repository, which
expects one deduplicated row, fails as well. -/
theorem recordCommand_twice_fresh_db_zero_rows :
    (recordCommand compileRE [] (some ("/h")) ["echo", "hello"] 10 freshDB).2 = false
    ∧ (recordCommand compileRE [] (some ("/h")) ["echo", "hello"] 11
        (recordCommand compileRE [] (some ("/h")) ["echo", "hello"] 10 freshDB).1).2 = false
    ∧ (recordCommand compileRE [] (some ("/h")) ["echo", "hello"] 11
        (recordCommand compileRE [] (some ("/h")) ["echo", "hello"] 10 freshDB).1).1.commands
      = some [] :=
  ⟨rfl, rfl, rfl⟩

/-- C9: showStats computes the average commands per day by dividing the
total by the whole-day span, shows it only when the span is positive,
and the displayed figure equals total divided by max 1 daySpan, since
for a positive span the max is the span itself. -/
theorem showStatsAvg_eq_spec_formula (total oldest newest : Nat) :
    showStatsAvg total oldest newest
      = (if (newest - oldest) / 86400 = 0 then none
         else some ((total : ℚ) / ((max 1 ((newest - oldest) / 86400) : Nat) : ℚ))) := by
  unfold showStatsAvg
  rcases Nat.eq_zero_or_pos ((newest - oldest) / 86400) with h | h
  · simp [h]
  · have h0 : (newest - oldest) / 86400 ≠ 0 := Nat.pos_iff_ne_zero.mp h
    have hm : max 1 ((newest - oldest) / 86400) = (newest - oldest) / 86400 :=
      Nat.max_eq_right h
    rw [if_pos h, if_neg h0, hm]

/-- C10: when the working-directory lookup fails, recordCommand behaves
exactly as if the directory were the literal string unknown: the overall
outcome is identical, and when the command is non-empty, non-excluded
and the inserts succeed, the command row is stored with directory
unknown.  The lookup error is never surfaced to the caller. -/
theorem recordCommand_wd_failure_uses_unknown
    (compile : String → Option (String → Bool)) (patterns : List String)
    (args : List String) (now : Nat) (db : DB) :
    recordCommand compile patterns none args now db
        = recordCommand compile patterns (some ("unknown")) args now db
      ∧ (∀ cs cws, db.commands = some cs → db.commandWords = some cws →
          shouldExclude compile patterns (String.intercalate (" ") args) = false →
          fields (String.intercalate (" ") args) ≠ [] →
          (recordCommand compile patterns none args now db).1.commands
            = some (cs ++ [⟨db.nextCommandId, now, "unknown",
                String.intercalate (" ") args⟩])) := by
  constructor
  · rfl
  · intro cs cws hcs hcw hex hnz
    unfold recordCommand
    simp [hex, hcs, hcw, hnz]

theorem recordCommand_wd_failure_uses_unknown_witness :
    recordCommand compileRE [] none ["git", "status"] 7 legacyReadyDB
        = recordCommand compileRE [] (some ("unknown")) ["git", "status"] 7 legacyReadyDB
      ∧ (recordCommand compileRE [] none ["git", "status"] 7 legacyReadyDB).1.commands
        = some ([] ++ [⟨1, 7, "unknown", String.intercalate (" ") ["git", "status"]⟩]) :=
  ⟨(recordCommand_wd_failure_uses_unknown compileRE [] ["git", "status"] 7 legacyReadyDB).1,
    (recordCommand_wd_failure_uses_unknown compileRE [] ["git", "status"] 7 legacyReadyDB).2
      [] [] rfl rfl rfl (by decide)⟩

/-- C4: schema initialization and migration are idempotent: a second
run of initDatabase, including migrateDatabase, changes nothing, and on
a database that is already on the current schema with no legacy table a
single run is a no-op beyond existence checks. -/
theorem initDatabase_idempotent :
    (∀ db, initDatabase (initDatabase db) = initDatabase db)
    ∧ (∀ db, db.commandWords = none → db.commands.isSome = true →
        db.words.isSome = true → db.cwp.isSome = true → initDatabase db = db) := by
  constructor
  · intro db
    cases db with
    | mk cs ws ps cw n => cases cw <;> simp [initDatabase, migrateDatabase]
  · intro db h1 h2 h3 h4
    cases db with
    | mk cs ws ps cw n =>
      cases cw with
      | some legacy => simp at h1
      | none =>
        cases cs with
        | none => simp at h2
        | some csv =>
          cases ws with
          | none => simp at h3
          | some wsv =>
            cases ps with
            | none => simp at h4
            | some psv => simp [initDatabase, migrateDatabase]

theorem initDatabase_idempotent_witness :
    initDatabase freshDB = freshDB :=
  initDatabase_idempotent.2 freshDB rfl rfl rfl rfl

/-- C6: shouldExclude evaluates patterns in order and returns true at
the first compiled pattern matching the command; a pattern that fails to
compile is skipped without aborting later patterns and without raising;
the result is false when no pattern matches or the list is empty; and
under the unanchored regex semantics of the engine the pattern caret ls
dollar excludes exactly the command ls and not ls -la. -/
theorem shouldExclude_spec :
    (∀ (compile : String → Option (String → Bool)) (c : String),
        shouldExclude compile [] c = false)
    ∧ (∀ (compile : String → Option (String → Bool)) (p : String)
          (rest : List String) (c : String), compile p = none →
          shouldExclude compile (p :: rest) c = shouldExclude compile rest c)
    ∧ (∀ (compile : String → Option (String → Bool)) (p : String)
          (rest : List String) (c : String) (m : String → Bool),
          compile p = some m → m c = true →
          shouldExclude compile (p :: rest) c = true)
    ∧ (∀ (compile : String → Option (String → Bool)) (p : String)
          (rest : List String) (c : String) (m : String → Bool),
          compile p = some m → m c = false →
          shouldExclude compile (p :: rest) c = shouldExclude compile rest c)
    ∧ (∀ (compile : String → Option (String → Bool)) (patterns : List String)
          (c : String),
          (∀ p ∈ patterns, ∀ m, compile p = some m → m c = false) →
          shouldExclude compile patterns c = false)
    ∧ shouldExclude compileRE [("^ls$")] ("ls") = true
    ∧ shouldExclude compileRE [("^ls$")] ("ls -la") = false
    ∧ compileRE ("(") = none := by
  refine ⟨?_, ?_, ?_, ?_, ?_, by decide, by decide, rfl⟩
  · intro compile c; rfl
  · intro compile p rest c h; simp [shouldExclude, h]
  · intro compile p rest c m h hm; simp [shouldExclude, h, hm]
  · intro compile p rest c m h hm; simp [shouldExclude, h, hm]
  · intro compile patterns c h
    induction patterns with
    | nil => rfl
    | cons p rest ih =>
      have ihr := ih (fun q hq => h q (List.mem_cons_of_mem p hq))
      cases hc : compile p with
      | none => simpa [shouldExclude, hc] using ihr
      | some m =>
        have hm := h p (List.mem_cons_self p rest) m hc
        simpa [shouldExclude, hc, hm] using ihr

theorem shouldExclude_spec_witness :
    shouldExclude compileRE [("("), ("^ls$")] ("ls") = true :=
  (shouldExclude_spec.2.1 compileRE ("(") [("^ls$")] ("ls") rfl).trans
    (shouldExclude_spec.2.2.1 compileRE ("^ls$") [] ("ls")
      (fun s => reMatch (String.data ("^ls$")) s.data) rfl rfl)

/-- C7: tokenization round-trip: after a successful record call, reading
the word rows of the new command ordered by position ascending yields
exactly the token sequence of the command, so joining them with a single
space reproduces the token sequence. -/
theorem loadCommandWords_roundtrip
    (compile : String → Option (String → Bool)) (patterns : List String)
    (wdRes : Option String) (args : List String) (now : Nat) (db : DB)
    (cs : List CommandRow) (cws : List CommandWordRow)
    (hcs : db.commands = some cs) (hcw : db.commandWords = some cws)
    (hfresh : ∀ r ∈ cws, r.command_id ≠ db.nextCommandId)
    (hex : shouldExclude compile patterns (String.intercalate (" ") args) = false)
    (hnz : fields (String.intercalate (" ") args) ≠ []) :
    loadCommandWords (recordCommand compile patterns wdRes args now db).1
        db.nextCommandId
      = some (fields (String.intercalate (" ") args)) := by
  unfold recordCommand
  simp only [hex, Bool.false_eq_true, if_false, hcs, hcw, if_neg hnz]
  unfold loadCommandWords
  simp only [Option.map_some']
  rw [List.filter_append, filter_other_commands_nil db.nextCommandId cws hfresh,
    wordRows_filter_self, List.nil_append,
    (wordRows_sorted_by_pos db.nextCommandId 0
      (fields (String.intercalate (" ") args))).insertionSort_eq,
    wordRows_map_word]

theorem loadCommandWords_roundtrip_witness :
    loadCommandWords
        (recordCommand compileRE [] (some ("/tmp/proj"))
          ["git", "status", "--porcelain"] 3 legacyReadyDB).1 1
      = some (fields (String.intercalate (" ") ["git", "status", "--porcelain"])) :=
  loadCommandWords_roundtrip compileRE [] (some ("/tmp/proj"))
    ["git", "status", "--porcelain"] 3 legacyReadyDB [] [] rfl rfl
    (by intro r hr; simp at hr) rfl (by decide)

/-- C8: searchCommands returns command rows matching on the full command
text or on any linked word, each matching command at most once, ordered
by timestamp descending, with at most 50 results, and it returns every
matching command whenever at most 50 commands match. -/
theorem searchCommands_spec (db : DB) (pat : String)
    (cs : List CommandRow) (cws : List CommandWordRow)
    (hcs : db.commands = some cs) (hcw : db.commandWords = some cws)
    (hnd : (cs.map fun c => c.id).Nodup) :
    ∃ l, searchCommands db pat = some l
      ∧ l.length ≤ 50
      ∧ List.Sorted tsDesc l
      ∧ l.all (fun c => cmdMatches cws pat c) = true
      ∧ (l.map fun c => c.id).Nodup
      ∧ ((cs.filter fun c => cmdMatches cws pat c).length ≤ 50 →
          ∀ c ∈ cs, cmdMatches cws pat c = true → c ∈ l) := by
  refine ⟨(List.insertionSort tsDesc (cs.filter fun c => cmdMatches cws pat c)).take 50,
    ?_, ?_, ?_, ?_, ?_, ?_⟩
  · simp [searchCommands, hcs, hcw]
  · rw [List.length_take]
    exact Nat.min_le_left _ _
  · exact (List.sorted_insertionSort tsDesc _).sublist (List.take_sublist 50 _)
  · rw [List.all_eq_true]
    intro c hc
    have h1 : c ∈ List.insertionSort tsDesc (cs.filter fun c => cmdMatches cws pat c) :=
      (List.take_sublist 50 _).subset hc
    have h2 : c ∈ cs.filter fun c => cmdMatches cws pat c :=
      (List.mem_insertionSort tsDesc).mp h1
    exact (List.mem_filter.mp h2).2
  · rw [List.map_take]
    refine List.Nodup.sublist (List.take_sublist 50 _) ?_
    refine (((List.perm_insertionSort tsDesc
      (cs.filter fun c => cmdMatches cws pat c)).map fun c => c.id).nodup_iff).mpr ?_
    exact List.Nodup.sublist (List.Sublist.map _ (List.filter_sublist cs)) hnd
  · intro h50 c hc hm
    have hmem : c ∈ cs.filter fun c => cmdMatches cws pat c :=
      List.mem_filter.mpr ⟨hc, hm⟩
    have hlen : (List.insertionSort tsDesc
        (cs.filter fun c => cmdMatches cws pat c)).length ≤ 50 := by
      rw [(List.perm_insertionSort tsDesc _).length_eq]
      exact h50
    rw [List.take_of_length_le hlen]
    exact (List.mem_insertionSort tsDesc).mpr hmem

theorem searchCommands_spec_witness :
    ∃ l, searchCommands searchDemoDB ("docker") = some l
      ∧ l.length ≤ 50
      ∧ List.Sorted tsDesc l
      ∧ l.all (fun c => cmdMatches searchDemoCws ("docker") c) = true
      ∧ (l.map fun c => c.id).Nodup
      ∧ ((searchDemoCs.filter fun c => cmdMatches searchDemoCws ("docker") c).length ≤ 50 →
          ∀ c ∈ searchDemoCs, cmdMatches searchDemoCws ("docker") c = true → c ∈ l) :=
  searchCommands_spec searchDemoDB ("docker") searchDemoCs searchDemoCws rfl rfl
    (by decide)

end Bashtrack
